import Mathlib

/-!
Shallow embedding of the OperaDemo RAG pipeline
(`src/validation/validator.py`, `src/rag/document_processor.py`,
`src/rag/retriever.py`, `src/rag/pipeline.py`) and proofs about its
specification.

Modelling conventions:
* Python `str` is Lean `String` (in this toolchain a `String` wraps a
  `List Char`, so all string operations compute in the kernel);
  character-level scanning is done on `String.toList`.
* Python `float` is modelled by `ℚ`; the float constants appearing in the
  source (`0.3`, `0.4`, `0.5`, `0.6`, `200`, ...) are exactly representable,
  and the comparisons the claims are about are exact.
* External capabilities (the sentence-embedding model, the BM25 scorer and
  the LLM) are oracles: their outputs are passed to the embedded functions
  as explicit arguments.
-/

/-- Python `str.split()` with no argument: split on runs of whitespace,
dropping empty pieces.  Implemented on `List Char` with a reversed
accumulator for the word being read, so it is structurally recursive and
computes inside the kernel. -/
def pySplitAux : List Char → List Char → List (List Char)
  | [], acc => if acc.isEmpty then [] else [acc.reverse]
  | c :: rest, acc =>
    if c.isWhitespace then
      if acc.isEmpty then pySplitAux rest []
      else acc.reverse :: pySplitAux rest []
    else pySplitAux rest (c :: acc)

def pySplitL (l : List Char) : List (List Char) :=
  pySplitAux l []

/-- Python `s.split()` on a `String`. -/
def pySplit (s : String) : List String :=
  (pySplitL s.toList).map List.asString

/-- Python `s.lower()` (`String.toLower` is not kernel-reducible in this
toolchain, so the character map is taken over the underlying list). -/
def pyLower (s : String) : String :=
  (s.toList.map Char.toLower).asString

/-- Does `pat` occur as a contiguous sublist of `l`? -/
def containsSub (l pat : List Char) : Bool :=
  match l with
  | [] => pat.isEmpty
  | _ :: rest => pat.isPrefixOf l || containsSub rest pat

/-- Python `pat in s` substring test. -/
def pyContains (s pat : String) : Bool :=
  containsSub s.toList pat.toList

/-- Python `" ".join(xs)`. -/
def pyJoinSpace (xs : List String) : String :=
  String.intercalate (" ") xs

/-!
## Regular-expression scanners (`validator.py`, `_extract_numbers` and
`_detect_hallucination`)

The three `findall` patterns and the `re.search` alternation are simple
enough that Python's leftmost, greedy, non-overlapping matching is
equivalent to the deterministic maximal-run scanners below.
-/

/-- Length of the match of `\d+\.?\d*%` at the head of `l`, if any.
Greedy digits, optional dot, greedy digits, then a literal percent. -/
def matchPctLen (l : List Char) : Option Nat :=
  let d1 := l.takeWhile Char.isDigit
  if d1.isEmpty then none
  else
    match l.drop d1.length with
    | '%' :: _ => some (d1.length + 1)
    | '.' :: r2 =>
      let d2 := r2.takeWhile Char.isDigit
      match r2.drop d2.length with
      | '%' :: _ => some (d1.length + 1 + d2.length + 1)
      | _ => none
    | _ => none

/-- Consume `(?:,\d{3})*` greedily: returns consumed length and the rest. -/
def eatThousandsGroups : List Char → Nat → Nat × List Char
  | ',' :: a :: b :: c :: r, acc =>
    if a.isDigit && b.isDigit && c.isDigit then eatThousandsGroups r (acc + 4)
    else (acc, ',' :: a :: b :: c :: r)
  | l, acc => (acc, l)

/-- Length of the match of `\$\d+(?:,\d{3})*(?:\.\d{2})?` at the head of `l`. -/
def matchCurLen (l : List Char) : Option Nat :=
  match l with
  | '$' :: r1 =>
    let d1 := r1.takeWhile Char.isDigit
    if d1.isEmpty then none
    else
      let p := eatThousandsGroups (r1.drop d1.length) 0
      let tail :=
        match p.2 with
        | '.' :: a :: b :: _ => if a.isDigit && b.isDigit then 3 else 0
        | _ => 0
      some (1 + d1.length + p.1 + tail)
  | _ => none

/-- Length of the match of `\d+\.?\d*` at the head of `l`. -/
def matchNumLen (l : List Char) : Option Nat :=
  let d1 := l.takeWhile Char.isDigit
  if d1.isEmpty then none
  else
    match l.drop d1.length with
    | '.' :: r2 => some (d1.length + 1 + (r2.takeWhile Char.isDigit).length)
    | _ => some d1.length

/-- Python `re.findall`: scan left to right, emit non-overlapping leftmost
matches, advancing by one character when no match starts here.  `m` returns
the (always positive) length of a match at the head. -/
def reFindallAux (m : List Char → Option Nat) : Nat → List Char → List String
  | 0, _ => []
  | _, [] => []
  | fuel + 1, l =>
    match m l with
    | some n => (l.take n).asString :: reFindallAux m fuel (l.drop n)
    | none => reFindallAux m fuel l.tail

def reFindall (m : List Char → Option Nat) (l : List Char) : List String :=
  reFindallAux m l.length l

/-- Model of `MultiStageValidator._extract_numbers`: the three patterns are run in
order and their matches concatenated. -/
def extractNumbers (text : String) : List String :=
  reFindall matchPctLen text.toList ++ reFindall matchCurLen text.toList ++
    reFindall matchNumLen text.toList

/-- Does `[A-Z][a-z]+ \d{1,2}, \d{4}` match at the head of `l`?
The quantified pieces are runs with nothing of the same class after them,
so greedy matching is equivalent to this maximal-run test. -/
def matchDateAt (l : List Char) : Bool :=
  match l with
  | c :: rest =>
    ('A' ≤ c && c ≤ 'Z') &&
      (let low := rest.takeWhile fun ch => 'a' ≤ ch && ch ≤ 'z'
      !low.isEmpty &&
        match rest.drop low.length with
        | ' ' :: r2 =>
          let ds := r2.takeWhile Char.isDigit
          (ds.length == 1 || ds.length == 2) &&
            match r2.drop ds.length with
            | ',' :: ' ' :: r3 => r3.length ≥ 4 && (r3.take 4).all Char.isDigit
            | _ => false
        | _ => false)
  | [] => false

/-- Model of `re.search(r'\d+\.?\d*%|\$\d+|[A-Z][a-z]+ \d{1,2}, \d{4}', answer)`:
does any alternative match anywhere in `l`? -/
def hasSpecificsL : List Char → Bool
  | [] => false
  | c :: rest =>
    (matchPctLen (c :: rest)).isSome ||
      (match c :: rest with
        | '$' :: d :: _ => d.isDigit
        | _ => false) ||
      matchDateAt (c :: rest) || hasSpecificsL rest

def hasSpecifics (s : String) : Bool := hasSpecificsL s.toList

/-!
## Validator data model (`validator.py`)
-/

/-- Model of `ValidationLevel` enum. -/
inductive ValidationLevel
  | high
  | medium
  | low
  | failed
deriving DecidableEq, Repr

/-- A retrieved chunk as consumed downstream of `HybridRetriever.retrieve`:
the dict rows carry the chunk's text and identity plus, when
`return_scores` was set, the three scores.  The validator reads the keys
`"text"` and `"combined_score"` through `.get` with defaults. -/
structure Scores where
  combined_score : ℚ
  bm25_score : ℚ
  dense_score : ℚ
deriving DecidableEq, Repr

structure RetrievedChunk where
  text : String
  source : String
  page : Nat
  chunk_id : Nat
  scores : Option Scores
deriving DecidableEq, Repr

instance : Inhabited RetrievedChunk := ⟨⟨"", "", 0, 0, none⟩⟩

/-- Model of `chunk.get("combined_score", 0.0)`. -/
def RetrievedChunk.combinedScoreD (c : RetrievedChunk) : ℚ :=
  match c.scores with
  | some s => s.combined_score
  | none => 0

/-- Model of `ValidationResult` (the `details` dict is modelled only through the
sub-check results, which the claims reference directly). -/
structure ValidationResult where
  level : ValidationLevel
  confidence_score : ℚ
  passed_checks : List String
  failed_checks : List String
  warnings : List String
deriving DecidableEq, Repr

/-- Model of `ValidationResult.is_safe_to_use`. -/
def ValidationResult.is_safe_to_use (r : ValidationResult) : Bool :=
  r.level = ValidationLevel.high ∨ r.level = ValidationLevel.medium

/-- Model of `MultiStageValidator` thresholds, with the constructor defaults. -/
structure MultiStageValidator where
  retrieval_threshold : ℚ := 3 / 10
  alignment_threshold : ℚ := 1 / 2
  min_confidence : ℚ := 3 / 5
deriving DecidableEq, Repr

/-- Model of `MultiStageValidator._check_retrieval_quality`: mean of the
`combined_score` values, `0.0` for an empty chunk list. -/
def MultiStageValidator.checkRetrievalQuality (chunks : List RetrievedChunk) : ℚ :=
  if chunks.isEmpty then 0
  else (chunks.map RetrievedChunk.combinedScoreD).sum / chunks.length

/-- Model of `MultiStageValidator._check_source_alignment`: token-set overlap ratio
between the lowercased answer and the concatenated source texts. -/
def MultiStageValidator.checkSourceAlignment (answer : String)
    (chunks : List RetrievedChunk) : ℚ :=
  if chunks.isEmpty || answer.isEmpty then 0
  else
    let answerTokens := (pySplit (pyLower answer)).toFinset
    let sourceText := pyJoinSpace (chunks.map RetrievedChunk.text)
    let sourceTokens := (pySplit (pyLower sourceText)).toFinset
    if answerTokens.card = 0 then 0
    else (answerTokens ∩ sourceTokens).card / (answerTokens.card : ℚ)

/-- Result dict of `_detect_hallucination`. -/
structure HallucinationCheck where
  likely_hallucination : Bool
  indicators : List String
  confidence : ℚ
deriving DecidableEq, Repr

/-- The contradiction indicator of `_detect_hallucination`: a "cannot
find" / "not available" disclaimer in an answer longer than 20 words.
In the source this indicator alone sets `likely_hallucination = True`. -/
def contradictionIndicator (answer : String) : Bool :=
  (pyContains (pyLower answer) ("cannot find") || pyContains (pyLower answer) ("not available")) &&
    (pySplit answer).length > 20

/-- Model of `MultiStageValidator._detect_hallucination`. -/
def MultiStageValidator.detectHallucination (answer : String)
    (chunks : List RetrievedChunk) : HallucinationCheck :=
  let inds1 :=
    if contradictionIndicator answer then
      ["Contradictory: Claims no info but provides detail"] else []
  let hasCitations := pyContains answer ("Source") || pyContains answer ("According to")
  let inds2 := inds1 ++
    (if hasSpecifics answer && !hasCitations && chunks.length > 0 then
      ["Specific claims without source attribution"] else [])
  let sourceLength : ℚ := ((chunks.map fun c => c.text.length).sum : ℚ)
  let inds3 := inds2 ++
    (if !chunks.isEmpty && decide ((answer.length : ℚ) > sourceLength * (1 / 2)) then
      ["Answer length exceeds reasonable extraction ratio"] else [])
  { likely_hallucination := contradictionIndicator answer || inds3.length ≥ 2
    indicators := inds3
    confidence := 1 - inds3.length * (3 / 10) }

/-- Result dict of `_check_numerical_accuracy`.  In the no-numbers branch
the source dict omits the last three keys; they are defaulted here. -/
structure NumericalCheck where
  has_numbers : Bool
  validated : Bool
  answer_numbers : List String
  matched_count : Nat
  total_count : Nat
deriving DecidableEq, Repr

/-- Model of `MultiStageValidator._check_numerical_accuracy`. -/
def MultiStageValidator.checkNumericalAccuracy (answer : String)
    (chunks : List RetrievedChunk) : NumericalCheck :=
  let answerNumbers := extractNumbers answer
  if answerNumbers.isEmpty then
    { has_numbers := false, validated := true, answer_numbers := []
      matched_count := 0, total_count := 0 }
  else
    let sourceText := pyJoinSpace (chunks.map RetrievedChunk.text)
    let sourceNumbers := extractNumbers sourceText
    { has_numbers := true
      validated := answerNumbers.all fun n => sourceNumbers.contains n
      answer_numbers := answerNumbers
      matched_count := (answerNumbers.filter fun n => sourceNumbers.contains n).length
      total_count := answerNumbers.length }

/-- Model of `MultiStageValidator._calculate_confidence`. -/
def MultiStageValidator.calculateConfidence (retrievalScore alignmentScore : ℚ)
    (passedCount failedCount : Nat) : ℚ :=
  let confidence := (3 / 10) * retrievalScore + (3 / 10) * alignmentScore +
    (2 / 5) * ((passedCount : ℚ) / (max (passedCount + failedCount) 1 : Nat))
  min 1 (max 0 confidence)

/-- Model of `MultiStageValidator._determine_validation_level`. -/
def MultiStageValidator.determineValidationLevel (v : MultiStageValidator)
    (confidenceScore : ℚ) (failedChecks : List String) : ValidationLevel :=
  if failedChecks.contains ("retrieval_quality") || failedChecks.contains ("numerical_accuracy") then
    ValidationLevel.failed
  else if confidenceScore ≥ v.min_confidence then ValidationLevel.high
  else if confidenceScore ≥ 2 / 5 then ValidationLevel.medium
  else ValidationLevel.low

/-- Assemble the result record from the accumulated check lists: the tail
of `MultiStageValidator.validate` after the four checks ran. -/
def MultiStageValidator.finishValidation (v : MultiStageValidator)
    (retrievalScore alignmentScore : ℚ) (passed failed warnings : List String) :
    ValidationResult :=
  let confidence :=
    MultiStageValidator.calculateConfidence retrievalScore alignmentScore
      passed.length failed.length
  { level := v.determineValidationLevel confidence failed
    confidence_score := confidence
    passed_checks := passed
    failed_checks := failed
    warnings := warnings }

/-- Model of `MultiStageValidator.validate`: the four checks run in source order,
appending to `passed_checks` / `failed_checks` / `warnings`.  The
`query` argument is accepted and unused, as in the source. -/
def MultiStageValidator.validate (v : MultiStageValidator) (query answer : String)
    (retrievedChunks : List RetrievedChunk) : ValidationResult :=
  let retrievalScore := MultiStageValidator.checkRetrievalQuality retrievedChunks
  let passed1 := if retrievalScore ≥ v.retrieval_threshold then ["retrieval_quality"] else []
  let failed1 := if retrievalScore ≥ v.retrieval_threshold then [] else ["retrieval_quality"]
  let warn1 := if retrievalScore ≥ v.retrieval_threshold then [] else ["Low retrieval quality"]
  let alignmentScore := MultiStageValidator.checkSourceAlignment answer retrievedChunks
  let passed2 := passed1 ++
    (if alignmentScore ≥ v.alignment_threshold then ["source_alignment"] else [])
  let failed2 := failed1 ++
    (if alignmentScore ≥ v.alignment_threshold then [] else ["source_alignment"])
  let warn2 := warn1 ++
    (if alignmentScore ≥ v.alignment_threshold then []
     else ["Answer may not be well-supported by sources"])
  let hall := MultiStageValidator.detectHallucination answer retrievedChunks
  let passed3 := passed2 ++ (if !hall.likely_hallucination then ["hallucination_check"] else [])
  let failed3 := failed2 ++ (if hall.likely_hallucination then ["hallucination_check"] else [])
  let warn3 := warn2 ++ (if hall.likely_hallucination then hall.indicators else [])
  let num := MultiStageValidator.checkNumericalAccuracy answer retrievedChunks
  let passed4 := passed3 ++ (if num.has_numbers && num.validated then ["numerical_accuracy"] else [])
  let failed4 := failed3 ++ (if num.has_numbers && !num.validated then ["numerical_accuracy"] else [])
  let warn4 := warn3 ++
    (if num.has_numbers && !num.validated then
      ["Numbers in answer may not match source documents"] else [])
  v.finishValidation retrievalScore alignmentScore passed4 failed4 warn4

/-!
## Document processor (`document_processor.py`)
-/

/-- Model of `DocumentChunk` metadata dict. -/
structure ChunkMetadata where
  char_start : Nat
  char_end : Nat
  chunk_length : Nat
deriving DecidableEq, Repr

/-- Model of `DocumentChunk`. -/
structure DocumentChunk where
  text : String
  source : String
  page : Nat
  chunk_id : Nat
  metadata : ChunkMetadata
deriving DecidableEq, Repr

instance : Inhabited DocumentChunk := ⟨⟨"", "", 0, 0, ⟨0, 0, 0⟩⟩⟩

/-- Model of `DocumentProcessor` configuration, with the constructor defaults. -/
structure DocumentProcessor where
  chunk_size : Nat := 800
  chunk_overlap : Nat := 200
deriving DecidableEq, Repr

/-- Python `str.rfind(pat)` on lists of characters: the largest index at
which `pat` starts, `-1` when `pat` does not occur. -/
def rfindL (l pat : List Char) : Int :=
  match ((List.range (l.length + 1)).filter fun i => pat.isPrefixOf (l.drop i)).max? with
  | some i => (i : Int)
  | none => -1

/-- Python `str.strip()`: drop leading and trailing whitespace. -/
def stripL (l : List Char) : List Char :=
  ((l.dropWhile Char.isWhitespace).reverse.dropWhile Char.isWhitespace).reverse

/-- Model of `DocumentProcessor._clean_text`: collapse whitespace runs to single
spaces, remove NUL characters, trim. -/
def DocumentProcessor.cleanText (s : String) : String :=
  (stripL ((pyJoinSpace (pySplit s)).toList.filter fun c => c != Char.ofNat 0)).asString

/-- One iteration of the `_create_chunks` while loop: from `start`, the
window, the optional break-point trim, and the final `(chunkText, end)`
pair.  `chunkText` is the pre-`strip` window text. -/
def DocumentProcessor.chunkWindow (dp : DocumentProcessor) (t : List Char)
    (start : Nat) : List Char × Nat :=
  let end0 := start + dp.chunk_size
  let w0 := (t.drop start).take dp.chunk_size
  if end0 < t.length then
    let breakPoint := max (rfindL w0 ['.', ' ']) (rfindL w0 ['\n'])
    if breakPoint > (dp.chunk_size : Int) - 200 then
      let w1 := w0.take (breakPoint + 1).toNat
      (w1, start + w1.length)
    else (w0, end0)
  else (w0, end0)

/-- The `_create_chunks` while loop.  `fuel` dominates the iteration count
(the source loop terminates for the configurations the theorems consider,
and the top-level entry supplies sufficient fuel for those). -/
def DocumentProcessor.createChunksAux (dp : DocumentProcessor) (t : List Char)
    (source : String) (page : Nat) : Nat → Nat → Nat → List DocumentChunk
  | 0, _, _ => []
  | fuel + 1, start, chunkId =>
    if start < t.length then
      let p := dp.chunkWindow t start
      let chunk : DocumentChunk :=
        { text := (stripL p.1).asString
          source := source
          page := page
          chunk_id := chunkId
          metadata := { char_start := start, char_end := p.2, chunk_length := p.1.length } }
      let start1 := p.2 - dp.chunk_overlap
      if t.length ≤ start1 || t.length ≤ p.2 then [chunk]
      else chunk :: dp.createChunksAux t source page fuel start1 (chunkId + 1)
    else []

/-- Model of `DocumentProcessor._create_chunks`. -/
def DocumentProcessor.createChunks (dp : DocumentProcessor) (text : List Char)
    (source : String) (page : Nat) : List DocumentChunk :=
  dp.createChunksAux text source page (text.length + 1) 0 0

/-- The page loop of `DocumentProcessor.process_pdf`: `pages` is the list
of per-page extracted texts (`page.extract_text()`, with `""` standing for
`None`), numbered from 1; falsy pages are skipped before cleaning. -/
def DocumentProcessor.processPagesAux (dp : DocumentProcessor) (source : String) :
    Nat → List String → List DocumentChunk
  | _, [] => []
  | pageNum, t :: rest =>
    (if t.isEmpty then []
     else dp.createChunks (DocumentProcessor.cleanText t).toList source pageNum) ++
      dp.processPagesAux source (pageNum + 1) rest

/-- Model of `DocumentProcessor.process_pdf`, over the extracted page texts. -/
def DocumentProcessor.processPdf (dp : DocumentProcessor) (source : String)
    (pages : List String) : List DocumentChunk :=
  dp.processPagesAux source 1 pages

/-!
## Hybrid retriever (`retriever.py`)

The BM25 scorer and the sentence-embedding model are external; their raw
per-chunk score vectors enter `retrieve` as oracle arguments.  `np.argsort`
is modelled by a sort of the index list ascending by score (the source's
tie order among equal scores is unspecified, and no claim depends on it).
-/

/-- Model of `scores.min()` on a non-empty vector (`0` on `[]`, unused there). -/
def npMin : List ℚ → ℚ
  | [] => 0
  | [x] => x
  | x :: y :: xs => min x (npMin (y :: xs))

/-- Model of `scores.max()` on a non-empty vector (`0` on `[]`, unused there). -/
def npMax : List ℚ → ℚ
  | [] => 0
  | [x] => x
  | x :: y :: xs => max x (npMax (y :: xs))

/-- Model of `HybridRetriever._normalize_scores`. -/
def HybridRetriever.normalizeScores (scores : List ℚ) : List ℚ :=
  if scores.length = 0 then scores
  else
    let minScore := npMin scores
    let maxScore := npMax scores
    if maxScore - minScore = 0 then scores.map fun _ => 1
    else scores.map fun s => (s - minScore) / (maxScore - minScore)

/-- Insert an index into a list kept ascending by `key`. -/
def insertByKey (key : Nat → ℚ) (i : Nat) : List Nat → List Nat
  | [] => [i]
  | j :: rest => if key i ≤ key j then i :: j :: rest else j :: insertByKey key i rest

/-- Model of `np.argsort(scores)`: the indices `0, ..., n-1` sorted ascending by
score. -/
def argsortAsc (key : Nat → ℚ) (n : Nat) : List Nat :=
  (List.range n).foldr (insertByKey key) []

/-- Python slice `xs[-k:]` for a non-negative `k`: the last `k` elements,
except that `k = 0` (since `-0 == 0`) yields the whole list. -/
def pyTailSlice (xs : List Nat) (k : Nat) : List Nat :=
  if k = 0 then xs else xs.drop (xs.length - k)

/-- The retriever's indexed state: the chunk list plus whether a BM25
index has been built (`self.bm25 is not None`), and the fusion weights. -/
structure HybridRetriever where
  bm25_weight : ℚ := 1 / 2
  dense_weight : ℚ := 1 / 2
  chunks : List DocumentChunk := []
  hasIndex : Bool := false
deriving DecidableEq, Repr

/-- Model of `HybridRetriever.index_documents`. -/
def HybridRetriever.indexDocuments (r : HybridRetriever)
    (chunks : List DocumentChunk) (append : Bool) : HybridRetriever :=
  if chunks.isEmpty then r
  else
    let newChunks :=
      if append && !r.chunks.isEmpty then
        r.chunks ++ chunks.filter fun c =>
          !(r.chunks.any fun e => e.source == c.source && e.chunk_id == c.chunk_id)
      else chunks
    { r with chunks := newChunks, hasIndex := true }

/-- Model of `HybridRetriever.retrieve`.  `bm25Raw` and `denseRaw` are the oracle
score vectors produced by `self.bm25.get_scores` and the embedding
cosine similarities, aligned positionally with `r.chunks`. -/
def HybridRetriever.retrieve (r : HybridRetriever) (bm25Raw denseRaw : List ℚ)
    (topK : Nat) (returnScores : Bool) : List RetrievedChunk :=
  if r.chunks.isEmpty || !r.hasIndex then []
  else
    let bm25Norm := HybridRetriever.normalizeScores bm25Raw
    let denseNorm := HybridRetriever.normalizeScores denseRaw
    let combined := List.zipWith
      (fun b d => r.bm25_weight * b + r.dense_weight * d) bm25Norm denseNorm
    let key := fun i => combined.getD i 0
    let topIndices := (pyTailSlice (argsortAsc key combined.length) topK).reverse
    topIndices.map fun i =>
      let c := r.chunks.getD i default
      { text := c.text
        source := c.source
        page := c.page
        chunk_id := c.chunk_id
        scores :=
          if returnScores then
            some { combined_score := combined.getD i 0
                   bm25_score := bm25Norm.getD i 0
                   dense_score := denseNorm.getD i 0 }
          else none }

/-!
## Pipeline (`pipeline.py`)

The LLM provider is external: the `LLMResponse` it would produce for the
formatted prompt enters `query` as an oracle argument, as do the raw score
vectors consumed by the retriever.
-/

/-- The provider's response object (`generate(...)`). -/
structure LLMResponse where
  text : String
  model : String
  tokens_used : Nat
deriving DecidableEq, Repr

/-- A metadata dict value (the source mixes strings, ints and floats). -/
inductive MetaV
  | s (v : String)
  | n (v : Nat)
  | q (v : ℚ)
deriving DecidableEq, Repr

/-- Model of `RAGResponse`. -/
structure RAGResponse where
  query : String
  answer : String
  sources : List RetrievedChunk
  validation : Option ValidationResult
  metadata : List (String × MetaV)
deriving DecidableEq, Repr

/-- Model of `RAGPipeline` state relevant to `query`. -/
structure RAGPipeline where
  retriever : HybridRetriever := {}
  validator : MultiStageValidator := {}
  top_k : Nat := 5
  documents_loaded : Bool := false
deriving DecidableEq, Repr

/-- Model of `retrieved_chunks[0]["combined_score"]`. -/
def topCombinedScore (retrieved : List RetrievedChunk) : ℚ :=
  (retrieved.headD default).combinedScoreD

/-- Model of `RAGPipeline.query`.  `bm25Raw`/`denseRaw` are the retriever's oracle
score vectors and `llm` the provider's oracle response. -/
def RAGPipeline.query (p : RAGPipeline) (bm25Raw denseRaw : List ℚ)
    (llm : LLMResponse) (question : String) (returnSources : Bool)
    (validate : Bool) : RAGResponse :=
  if !p.documents_loaded then
    { query := question
      answer := "No documents loaded. Please load documents first."
      sources := []
      validation := none
      metadata := [("error", MetaV.s ("no_documents_loaded"))] }
  else
    let retrievedChunks := p.retriever.retrieve bm25Raw denseRaw p.top_k true
    if retrievedChunks.isEmpty then
      { query := question
        answer := "I could not find relevant information in the documents."
        sources := []
        validation := none
        metadata := [("retrieval_count", MetaV.n 0)] }
    else
      let validationResult :=
        if validate then some (p.validator.validate question llm.text retrievedChunks)
        else none
      { query := question
        answer := llm.text
        sources := if returnSources then retrievedChunks else []
        validation := validationResult
        metadata :=
          [("retrieval_count", MetaV.n retrievedChunks.length),
           ("model", MetaV.s llm.model),
           ("tokens_used", MetaV.n llm.tokens_used),
           ("top_retrieval_score", MetaV.q (topCombinedScore retrievedChunks))] }

/-!
## Theorems

Helper lemmas first, then one theorem per claim (witnesses and
counterexamples alongside their claims).
-/

theorem determineValidationLevel_eq_failed_iff (v : MultiStageValidator)
    (c : ℚ) (fc : List String) :
    v.determineValidationLevel c fc = ValidationLevel.failed ↔
      ("retrieval_quality" ∈ fc ∨ "numerical_accuracy" ∈ fc) := by
  unfold MultiStageValidator.determineValidationLevel
  split_ifs with h1 h2 h3 <;>
    simp_all [Bool.or_eq_true, List.elem_iff]

theorem finishValidation_level_failed_iff (v : MultiStageValidator)
    (rs als : ℚ) (p f w : List String) :
    (v.finishValidation rs als p f w).level = ValidationLevel.failed ↔
      ("retrieval_quality" ∈ (v.finishValidation rs als p f w).failed_checks ∨
        "numerical_accuracy" ∈ (v.finishValidation rs als p f w).failed_checks) :=
  determineValidationLevel_eq_failed_iff v _ f

/-- C1: in every `ValidationResult` returned by `MultiStageValidator.validate`,
`level = FAILED` exactly when `retrieval_quality` or `numerical_accuracy`
appears in `failed_checks` — so a critical failure forces `FAILED`
regardless of the confidence score, and no other combination of failed
checks can produce `FAILED`. -/
theorem validate_critical_failure_veto (v : MultiStageValidator)
    (query answer : String) (chunks : List RetrievedChunk) :
    ("retrieval_quality" ∈ (v.validate query answer chunks).failed_checks ∨
        "numerical_accuracy" ∈ (v.validate query answer chunks).failed_checks) ↔
      (v.validate query answer chunks).level = ValidationLevel.failed := by
  unfold MultiStageValidator.validate
  exact (finishValidation_level_failed_iff v _ _ _ _ _).symm

/-- C4: the numerical-accuracy check passes exactly when every number
string extracted from the answer (percentage, currency and bare-decimal
patterns, in that order) exactly string-matches some number string
extracted the same way from the space-joined source texts; an answer with
no extractable numbers yields `has_numbers = false` and
`validated = true`. -/
theorem checkNumericalAccuracy_spec (answer : String) (chunks : List RetrievedChunk) :
    ((MultiStageValidator.checkNumericalAccuracy answer chunks).validated = true ↔
      ∀ n ∈ extractNumbers answer,
        n ∈ extractNumbers (pyJoinSpace (chunks.map RetrievedChunk.text))) ∧
    ((MultiStageValidator.checkNumericalAccuracy answer chunks).has_numbers = false ↔
      extractNumbers answer = []) ∧
    (extractNumbers answer = [] →
      (MultiStageValidator.checkNumericalAccuracy answer chunks).has_numbers = false ∧
      (MultiStageValidator.checkNumericalAccuracy answer chunks).validated = true) := by
  unfold MultiStageValidator.checkNumericalAccuracy
  by_cases h : extractNumbers answer = []
  · simp [h]
  · simp [h, List.all_eq_true, List.elem_iff]

/-- C4 witness: a numberless answer vacuously passes, and with the source
text `"The fee is 2%."` the answer `"The fee is 2%."` validates. -/
theorem checkNumericalAccuracy_spec_witness :
    (MultiStageValidator.checkNumericalAccuracy ("no numbers here") []).has_numbers = false ∧
    (MultiStageValidator.checkNumericalAccuracy ("no numbers here") []).validated = true :=
  (checkNumericalAccuracy_spec ("no numbers here") []).2.2 (by decide)

/-- C2 counterexample: with the contradiction indicator alone (an answer
containing "cannot find" that is 21 words long, against an empty chunk
list) only one indicator is matched, yet `_detect_hallucination` reports
`likely_hallucination = True` — the source sets the flag directly in the
contradiction branch, so the "exactly when at least 2 indicators" claim is
false. -/
theorem detectHallucination_single_indicator_counterexample :
    (MultiStageValidator.detectHallucination
        ("cannot find a a a a a a a a a a a a a a a a a a a a") []).indicators.length < 2 ∧
      (MultiStageValidator.detectHallucination
        ("cannot find a a a a a a a a a a a a a a a a a a a a") []).likely_hallucination = true := by
  decide

/-- C2 amended: the hallucination check fails (`likely_hallucination`)
exactly when at least 2 indicators are matched OR the contradiction
indicator (a "cannot find" / "not available" disclaimer in an answer
longer than 20 words) is matched, the latter setting the flag by itself;
with fewer than 2 indicators and no contradiction indicator the check
passes. -/
theorem detectHallucination_fails_iff (answer : String)
    (chunks : List RetrievedChunk) :
    (MultiStageValidator.detectHallucination answer chunks).likely_hallucination = true ↔
      (2 ≤ (MultiStageValidator.detectHallucination answer chunks).indicators.length ∨
        contradictionIndicator answer = true) := by
  unfold MultiStageValidator.detectHallucination
  simp only [Bool.or_eq_true, decide_eq_true_eq]
  exact or_comm

/-- The `(source, chunk_id)` key of `c` occurs in `l` whenever `c ∈ l`. -/
theorem any_key_of_mem (l : List DocumentChunk) (c : DocumentChunk) (h : c ∈ l) :
    (l.any fun e => e.source == c.source && e.chunk_id == c.chunk_id) = true :=
  List.any_eq_true.mpr ⟨c, h, by simp⟩

/-- After one append of `cs`, every chunk of `cs` has its key present. -/
theorem indexDocuments_key_saturated (r : HybridRetriever) (cs : List DocumentChunk)
    (hcs : ¬cs.isEmpty = true) (c : DocumentChunk) (hc : c ∈ cs) :
    ((r.indexDocuments cs true).chunks.any fun e =>
      e.source == c.source && e.chunk_id == c.chunk_id) = true := by
  unfold HybridRetriever.indexDocuments
  rw [if_neg hcs]
  dsimp only
  split
  · rw [List.any_append]
    by_cases hk : (r.chunks.any fun e => e.source == c.source && e.chunk_id == c.chunk_id) = true
    · simp [hk]
    · have hm : c ∈ cs.filter fun x =>
          !(r.chunks.any fun e => e.source == x.source && e.chunk_id == x.chunk_id) :=
        List.mem_filter.mpr ⟨hc, by simp [hk]⟩
      simp [any_key_of_mem _ c hm]
  · exact any_key_of_mem cs c hc

/-- C7: `index_documents` with `append=True` drops incoming chunks whose
`(source, chunk_id)` key already exists (on a non-empty index), never
decreases the chunk count, and indexing the same chunk set twice with
`append=True` leaves the count unchanged after the second call. -/
theorem indexDocuments_append_dedup (r : HybridRetriever) (cs : List DocumentChunk) :
    (¬r.chunks.isEmpty = true → ¬cs.isEmpty = true →
      (r.indexDocuments cs true).chunks =
        r.chunks ++ cs.filter fun x =>
          !(r.chunks.any fun e => e.source == x.source && e.chunk_id == x.chunk_id)) ∧
    r.chunks.length ≤ (r.indexDocuments cs true).chunks.length ∧
    ((r.indexDocuments cs true).indexDocuments cs true).chunks.length =
      (r.indexDocuments cs true).chunks.length := by
  refine ⟨fun hr hcs => ?_, ?_, ?_⟩
  · unfold HybridRetriever.indexDocuments
    rw [if_neg hcs]
    dsimp only
    rw [if_pos (by simp_all)]
  · unfold HybridRetriever.indexDocuments
    by_cases hcs : cs.isEmpty = true
    · rw [if_pos hcs]
    · rw [if_neg hcs]
      dsimp only
      split
      · simp
      · next hb =>
        have : r.chunks.isEmpty = true := by
          by_contra hr
          exact hb (by simp [hr])
        rw [List.isEmpty_iff] at this
        simp [this]
  · by_cases hcs : cs.isEmpty = true
    · conv_lhs => rw [HybridRetriever.indexDocuments, if_pos hcs]
    · have hsat := indexDocuments_key_saturated r cs hcs
      have h1 : ¬(r.indexDocuments cs true).chunks.isEmpty = true := by
        unfold HybridRetriever.indexDocuments
        rw [if_neg hcs]
        dsimp only
        split
        · next hb =>
          intro hemp
          rw [List.isEmpty_iff] at hemp
          rcases List.append_eq_nil.mp hemp with ⟨he, _⟩
          have : r.chunks.isEmpty = true := by simp [he]
          simp [this] at hb
        · exact hcs
      conv_lhs => rw [HybridRetriever.indexDocuments, if_neg hcs]
      dsimp only
      rw [if_pos (by simp_all)]
      have hfil : (cs.filter fun x =>
          !((r.indexDocuments cs true).chunks.any fun e =>
            e.source == x.source && e.chunk_id == x.chunk_id)) = [] := by
        rw [List.filter_eq_nil_iff]
        intro a ha
        simp [hsat a ha]
      rw [hfil, List.append_nil]

/-- C7 witness: a concrete non-empty index and batch discharging the
hypotheses of the dedup equation. -/
theorem indexDocuments_append_dedup_witness :
    ({ chunks := [(⟨"t", "a.pdf", 1, 0, ⟨0, 1, 1⟩⟩ : DocumentChunk)], hasIndex := true :
        HybridRetriever
      }.indexDocuments
        [(⟨"t", "a.pdf", 1, 0, ⟨0, 1, 1⟩⟩ : DocumentChunk), ⟨"u", "a.pdf", 1, 1, ⟨0, 1, 1⟩⟩]
        true).chunks =
      [(⟨"t", "a.pdf", 1, 0, ⟨0, 1, 1⟩⟩ : DocumentChunk)] ++
        List.filter
          (fun x =>
            !(List.any [(⟨"t", "a.pdf", 1, 0, ⟨0, 1, 1⟩⟩ : DocumentChunk)] fun e =>
              e.source == x.source && e.chunk_id == x.chunk_id))
          [(⟨"t", "a.pdf", 1, 0, ⟨0, 1, 1⟩⟩ : DocumentChunk), ⟨"u", "a.pdf", 1, 1, ⟨0, 1, 1⟩⟩] :=
  (indexDocuments_append_dedup _ _).1 (by decide) (by decide)

/-- C9: with no documents loaded, `query` returns the fixed
"no documents loaded" answer with empty sources, no validation result and
an error tag in metadata; with documents loaded but an empty retrieval, it
returns the fixed "could not find relevant information" answer with no
validation result. -/
theorem query_degraded_responses (p : RAGPipeline) (bm25Raw denseRaw : List ℚ)
    (llm : LLMResponse) (question : String) (returnSources validate : Bool) :
    (p.documents_loaded = false →
      p.query bm25Raw denseRaw llm question returnSources validate =
        { query := question
          answer := "No documents loaded. Please load documents first."
          sources := []
          validation := none
          metadata := [("error", MetaV.s ("no_documents_loaded"))] }) ∧
    (p.documents_loaded = true →
      p.retriever.retrieve bm25Raw denseRaw p.top_k true = [] →
      p.query bm25Raw denseRaw llm question returnSources validate =
        { query := question
          answer := "I could not find relevant information in the documents."
          sources := []
          validation := none
          metadata := [("retrieval_count", MetaV.n 0)] }) := by
  constructor
  · intro h
    unfold RAGPipeline.query
    rw [if_pos (by simp [h])]
  · intro h hret
    unfold RAGPipeline.query
    rw [if_neg (by simp [h])]
    dsimp only
    rw [if_pos (by simp [hret])]

/-- C9 witness: the default pipeline state has no documents loaded, and a
loaded pipeline over an un-indexed retriever retrieves nothing. -/
theorem query_degraded_responses_witness :
    ({} : RAGPipeline).query [] [] ⟨"x", "m", 0⟩ "What is the fee?" true true =
      { query := "What is the fee?"
        answer := "No documents loaded. Please load documents first."
        sources := []
        validation := none
        metadata := [("error", MetaV.s ("no_documents_loaded"))] } ∧
    ({ documents_loaded := true } : RAGPipeline).query [] [] ⟨"x", "m", 0⟩ "q" true true =
      { query := "q"
        answer := "I could not find relevant information in the documents."
        sources := []
        validation := none
        metadata := [("retrieval_count", MetaV.n 0)] } :=
  ⟨(query_degraded_responses {} [] [] ⟨"x", "m", 0⟩ "What is the fee?" true true).1 rfl,
    (query_degraded_responses { documents_loaded := true } [] [] ⟨"x", "m", 0⟩ "q" true true).2
      rfl (by rw [HybridRetriever.retrieve]; simp)⟩

/-- C10: when the answer has no extractable numbers, `numerical_accuracy`
appears in neither `passed_checks` nor `failed_checks`, those two lists
cover exactly the other three checks, and the check-ratio term of the
confidence score is `passedCount / 3`. -/
theorem validate_no_numbers_check_ratio (v : MultiStageValidator) (q answer : String)
    (chunks : List RetrievedChunk) (h : extractNumbers answer = []) :
    "numerical_accuracy" ∉ (v.validate q answer chunks).passed_checks ∧
    "numerical_accuracy" ∉ (v.validate q answer chunks).failed_checks ∧
    (v.validate q answer chunks).passed_checks.length +
      (v.validate q answer chunks).failed_checks.length = 3 ∧
    (v.validate q answer chunks).confidence_score =
      min 1 (max 0 ((3 / 10) * MultiStageValidator.checkRetrievalQuality chunks +
        (3 / 10) * MultiStageValidator.checkSourceAlignment answer chunks +
        (2 / 5) * (((v.validate q answer chunks).passed_checks.length : ℚ) / 3))) := by
  have hnum : MultiStageValidator.checkNumericalAccuracy answer chunks =
      ⟨false, true, [], 0, 0⟩ := by
    unfold MultiStageValidator.checkNumericalAccuracy
    rw [if_pos (by simp [h])]
  unfold MultiStageValidator.validate
  rw [hnum]
  unfold MultiStageValidator.finishValidation MultiStageValidator.calculateConfidence
  simp only [Bool.false_and, Bool.false_eq_true, if_false, List.append_nil]
  split_ifs with h1 h2 h3 <;> simp_all

/-- C10 witness: `"hello world"` has no extractable numbers. -/
theorem validate_no_numbers_check_ratio_witness :
    "numerical_accuracy" ∉ (MultiStageValidator.validate {} "q" "hello world" []).passed_checks ∧
    "numerical_accuracy" ∉ (MultiStageValidator.validate {} "q" "hello world" []).failed_checks ∧
    (MultiStageValidator.validate {} "q" "hello world" []).passed_checks.length +
      (MultiStageValidator.validate {} "q" "hello world" []).failed_checks.length = 3 ∧
    (MultiStageValidator.validate {} "q" "hello world" []).confidence_score =
      min 1 (max 0 ((3 / 10) * MultiStageValidator.checkRetrievalQuality [] +
        (3 / 10) * MultiStageValidator.checkSourceAlignment ("hello world") [] +
        (2 / 5) *
          (((MultiStageValidator.validate {} "q" "hello world" []).passed_checks.length : ℚ) /
            3))) :=
  validate_no_numbers_check_ratio {} "q" "hello world" [] (by decide)

theorem npMin_le_of_mem : ∀ (l : List ℚ) (x : ℚ), x ∈ l → npMin l ≤ x
  | [x], y, h => by
    rcases List.mem_singleton.mp h with rfl
    simp [npMin]
  | x :: y :: xs, z, h => by
    rcases List.mem_cons.mp h with rfl | h2
    · exact min_le_left _ _
    · exact le_trans (min_le_right _ _) (npMin_le_of_mem (y :: xs) z h2)

theorem le_npMax_of_mem : ∀ (l : List ℚ) (x : ℚ), x ∈ l → x ≤ npMax l
  | [x], y, h => by
    rcases List.mem_singleton.mp h with rfl
    simp [npMax]
  | x :: y :: xs, z, h => by
    rcases List.mem_cons.mp h with rfl | h2
    · exact le_max_left _ _
    · exact le_trans (le_npMax_of_mem (y :: xs) z h2) (le_max_right _ _)

theorem npMin_mem : ∀ (l : List ℚ), l ≠ [] → npMin l ∈ l
  | [x], _ => by simp [npMin]
  | x :: y :: xs, _ => by
    rw [npMin]
    rcases min_choice x (npMin (y :: xs)) with h | h <;> rw [h]
    · exact List.mem_cons_self _ _
    · exact List.mem_cons_of_mem _ (npMin_mem (y :: xs) (by simp))

theorem npMax_mem : ∀ (l : List ℚ), l ≠ [] → npMax l ∈ l
  | [x], _ => by simp [npMax]
  | x :: y :: xs, _ => by
    rw [npMax]
    rcases max_choice x (npMax (y :: xs)) with h | h <;> rw [h]
    · exact List.mem_cons_self _ _
    · exact List.mem_cons_of_mem _ (npMax_mem (y :: xs) (by simp))

theorem normalizeScores_length (scores : List ℚ) :
    (HybridRetriever.normalizeScores scores).length = scores.length := by
  rw [HybridRetriever.normalizeScores]
  split_ifs <;> simp [apply_ite List.length]

/-- C5: on a non-empty score vector, min-max normalization yields values
in `[0,1]`; when all scores are equal it returns the constant-one vector
instead of dividing by zero, and otherwise some position holding the
maximal raw score maps to `1` and some position holding the minimal raw
score maps to `0`. -/
theorem normalizeScores_bounds (scores : List ℚ) (h : scores ≠ []) :
    (∀ x ∈ HybridRetriever.normalizeScores scores, 0 ≤ x ∧ x ≤ 1) ∧
    (npMax scores - npMin scores = 0 →
      HybridRetriever.normalizeScores scores = scores.map fun _ => 1) ∧
    (npMax scores - npMin scores ≠ 0 →
      (∃ i, ∃ hi : i < scores.length, scores[i] = npMax scores ∧
        (HybridRetriever.normalizeScores scores).getD i 0 = 1) ∧
      (∃ i, ∃ hi : i < scores.length, scores[i] = npMin scores ∧
        (HybridRetriever.normalizeScores scores).getD i 0 = 0)) := by
  have hlen : ¬scores.length = 0 := by simpa using h
  have hmm : npMin scores ≤ npMax scores :=
    le_trans (npMin_le_of_mem scores _ (npMax_mem scores h))
      (le_refl _)
  refine ⟨?_, ?_, ?_⟩
  · intro x hx
    rw [HybridRetriever.normalizeScores] at hx
    rw [if_neg hlen] at hx
    by_cases hz : npMax scores - npMin scores = 0
    · rw [if_pos hz] at hx
      rcases List.mem_map.mp hx with ⟨s, _, rfl⟩
      norm_num
    · rw [if_neg hz] at hx
      rcases List.mem_map.mp hx with ⟨s, hs, rfl⟩
      have hpos : 0 < npMax scores - npMin scores :=
        lt_of_le_of_ne (by linarith [npMin_le_of_mem scores _ (npMax_mem scores h)])
          (Ne.symm hz)
      constructor
      · apply div_nonneg _ (le_of_lt hpos)
        have := npMin_le_of_mem scores s hs
        linarith
      · rw [div_le_one hpos]
        have := le_npMax_of_mem scores s hs
        linarith
  · intro hz
    rw [HybridRetriever.normalizeScores, if_neg hlen, if_pos hz]
  · intro hz
    constructor
    · rcases List.mem_iff_getElem.mp (npMax_mem scores h) with ⟨i, hi, hie⟩
      refine ⟨i, hi, hie, ?_⟩
      have : HybridRetriever.normalizeScores scores =
          scores.map fun s => (s - npMin scores) / (npMax scores - npMin scores) := by
        rw [HybridRetriever.normalizeScores, if_neg hlen, if_neg hz]
      rw [this, List.getD_eq_getElem _ _ (by simpa using hi), List.getElem_map, hie]
      field_simp
    · rcases List.mem_iff_getElem.mp (npMin_mem scores h) with ⟨i, hi, hie⟩
      refine ⟨i, hi, hie, ?_⟩
      have : HybridRetriever.normalizeScores scores =
          scores.map fun s => (s - npMin scores) / (npMax scores - npMin scores) := by
        rw [HybridRetriever.normalizeScores, if_neg hlen, if_neg hz]
      rw [this, List.getD_eq_getElem _ _ (by simpa using hi), List.getElem_map, hie]
      simp

/-- C5 witness: the vector `[3, 1, 2]` normalizes inside `[0,1]` with the
max at `1` and the min at `0`. -/
theorem normalizeScores_bounds_witness :
    (∀ x ∈ HybridRetriever.normalizeScores [3, 1, 2], 0 ≤ x ∧ x ≤ 1) ∧
    (npMax [3, 1, 2] - npMin [3, 1, 2] = 0 →
      HybridRetriever.normalizeScores [3, 1, 2] = List.map (fun _ => 1) [3, 1, 2]) ∧
    (npMax [3, 1, 2] - npMin [3, 1, 2] ≠ 0 →
      (∃ i, ∃ hi : i < ([3, 1, 2] : List ℚ).length, ([3, 1, 2] : List ℚ)[i] = npMax [3, 1, 2] ∧
        (HybridRetriever.normalizeScores [3, 1, 2]).getD i 0 = 1) ∧
      (∃ i, ∃ hi : i < ([3, 1, 2] : List ℚ).length, ([3, 1, 2] : List ℚ)[i] = npMin [3, 1, 2] ∧
        (HybridRetriever.normalizeScores [3, 1, 2]).getD i 0 = 0)) :=
  normalizeScores_bounds [3, 1, 2] (by simp)

theorem createChunksAux_chunkIds (dp : DocumentProcessor) (t : List Char)
    (src : String) (pg : Nat) :
    ∀ fuel start cid,
      (dp.createChunksAux t src pg fuel start cid).map DocumentChunk.chunk_id =
        List.range' cid (dp.createChunksAux t src pg fuel start cid).length := by
  intro fuel
  induction fuel with
  | zero => intro start cid; rfl
  | succ n ih =>
    intro start cid
    rw [DocumentProcessor.createChunksAux]
    by_cases h : start < t.length
    · rw [if_pos h]
      dsimp only
      split
      · simp [List.range']
      · simp [ih, List.range']
    · rw [if_neg h]
      rfl

theorem createChunksAux_page_source (dp : DocumentProcessor) (t : List Char)
    (src : String) (pg : Nat) :
    ∀ fuel start cid c, c ∈ dp.createChunksAux t src pg fuel start cid →
      c.page = pg ∧ c.source = src := by
  intro fuel
  induction fuel with
  | zero => intro start cid c hc; cases hc
  | succ n ih =>
    intro start cid c hc
    rw [DocumentProcessor.createChunksAux] at hc
    by_cases h : start < t.length
    · rw [if_pos h] at hc
      dsimp only at hc
      split at hc
      · rcases List.mem_singleton.mp hc with rfl
        exact ⟨rfl, rfl⟩
      · rcases List.mem_cons.mp hc with rfl | h2
        · exact ⟨rfl, rfl⟩
        · exact ih _ _ c h2
    · rw [if_neg h] at hc
      cases hc

/-- Chunk ids within one `_create_chunks` call are the positions
`0, 1, ...` of the produced chunks. -/
theorem createChunks_chunkIds (dp : DocumentProcessor) (t : List Char)
    (src : String) (pg : Nat) :
    (dp.createChunks t src pg).map DocumentChunk.chunk_id =
      List.range (dp.createChunks t src pg).length := by
  rw [DocumentProcessor.createChunks, createChunksAux_chunkIds, List.range_eq_range']

theorem processPagesAux_page_lb (dp : DocumentProcessor) (src : String) :
    ∀ (pages : List String) (p : Nat) (c : DocumentChunk),
      c ∈ dp.processPagesAux src p pages → p ≤ c.page := by
  intro pages
  induction pages with
  | nil => intro p c hc; cases hc
  | cons t rest ih =>
    intro p c hc
    rw [DocumentProcessor.processPagesAux] at hc
    rcases List.mem_append.mp hc with h1 | h2
    · split at h1
      · cases h1
      · exact le_of_eq ((createChunksAux_page_source dp _ src p _ _ _ c h1).1).symm
    · exact le_trans (Nat.le_succ p) (ih (p + 1) c h2)

theorem processPagesAux_pairs_nodup (dp : DocumentProcessor) (src : String) :
    ∀ (pages : List String) (p : Nat),
      ((dp.processPagesAux src p pages).map fun c => (c.page, c.chunk_id)).Nodup := by
  intro pages
  induction pages with
  | nil => intro p; simp [DocumentProcessor.processPagesAux]
  | cons t rest ih =>
    intro p
    rw [DocumentProcessor.processPagesAux, List.map_append]
    rw [List.nodup_append]
    refine ⟨?_, ih (p + 1), ?_⟩
    · apply List.Nodup.of_map Prod.snd
      rw [List.map_map]
      have hsnd : (Prod.snd ∘ fun c : DocumentChunk => (c.page, c.chunk_id)) =
          DocumentChunk.chunk_id := rfl
      rw [hsnd]
      split
      · simp
      · rw [DocumentProcessor.createChunks, createChunksAux_chunkIds]
        exact List.nodup_range' _ _
    · intro a ha hb
      rcases List.mem_map.mp ha with ⟨c, hc, rfl⟩
      rcases List.mem_map.mp hb with ⟨c2, hc2, heq⟩
      have hp2 : p + 1 ≤ c2.page := processPagesAux_page_lb dp src rest (p + 1) c2 hc2
      have hp1 : c.page = p := by
        split at hc
        · cases hc
        · exact (createChunksAux_page_source dp _ src p _ _ _ c hc).1
      have hpp : c2.page = c.page := congrArg Prod.fst heq
      omega

/-- C3 counterexample: a two-page document whose pages each produce one
chunk yields `chunk_id`s `[0, 0]` — `_create_chunks` restarts `chunk_id`
at 0 on every page, so the ids are not strictly increasing across the
document and `(source, chunk_id)` does not uniquely identify a chunk. -/
theorem processPdf_chunkIds_counterexample :
    (((({} : DocumentProcessor)).processPdf ("doc.pdf") ["hello", "world"]).map
        DocumentChunk.chunk_id = [0, 0]) ∧
    ¬((((({} : DocumentProcessor)).processPdf ("doc.pdf") ["hello", "world"]).map
        DocumentChunk.chunk_id).Chain' (· < ·)) ∧
    ¬((((({} : DocumentProcessor)).processPdf ("doc.pdf") ["hello", "world"]).map
        fun c => (c.source, c.chunk_id)).Nodup) := by
  have h : ((({} : DocumentProcessor)).processPdf ("doc.pdf") ["hello", "world"]).map
      DocumentChunk.chunk_id = [0, 0] := by decide
  refine ⟨h, ?_, ?_⟩
  · rw [h]
    simp [List.chain'_cons]
  · decide

/-- C3 amended: within each page the emitted chunk ids are exactly the
0-based positions `0, 1, ...` (so they are 0-based, consecutive and
strictly increasing per page), and they restart at 0 on each page, so the
key that uniquely identifies a chunk of one ingestion pass is
`(source, page, chunk_id)` rather than `(source, chunk_id)`. -/
theorem processPdf_chunkIds_per_page (dp : DocumentProcessor) (src : String)
    (pages : List String) (t : List Char) (pg : Nat) :
    ((dp.createChunks t src pg).map DocumentChunk.chunk_id =
      List.range (dp.createChunks t src pg).length) ∧
    ((dp.processPdf src pages).map fun c => (c.source, c.page, c.chunk_id)).Nodup := by
  refine ⟨createChunks_chunkIds dp t src pg, ?_⟩
  apply List.Nodup.of_map (fun tr : String × Nat × Nat => tr.2)
  rw [List.map_map]
  exact processPagesAux_pairs_nodup dp src pages 1

theorem insertByKey_length (key : Nat → ℚ) (i : Nat) :
    ∀ l, (insertByKey key i l).length = l.length + 1
  | [] => rfl
  | j :: rest => by
    rw [insertByKey]
    split_ifs
    · rfl
    · simp [insertByKey_length key i rest]

theorem mem_insertByKey (key : Nat → ℚ) (i : Nat) :
    ∀ l a, a ∈ insertByKey key i l ↔ a = i ∨ a ∈ l
  | [], a => by simp [insertByKey]
  | j :: rest, a => by
    rw [insertByKey]
    split_ifs
    · simp [or_comm, or_assoc, or_left_comm]
    · simp only [List.mem_cons, mem_insertByKey key i rest a]
      tauto

theorem insertByKey_pairwise (key : Nat → ℚ) (i : Nat) :
    ∀ l, l.Pairwise (fun a b => key a ≤ key b) →
      (insertByKey key i l).Pairwise (fun a b => key a ≤ key b)
  | [], _ => by simp [insertByKey]
  | j :: rest, h => by
    rw [insertByKey]
    rcases List.pairwise_cons.mp h with ⟨hj, hrest⟩
    split_ifs with hle
    · exact List.pairwise_cons.mpr ⟨fun b hb => by
        rcases List.mem_cons.mp hb with rfl | hb2
        · exact hle
        · exact le_trans hle (hj b hb2), h⟩
    · refine List.pairwise_cons.mpr ⟨fun b hb => ?_, insertByKey_pairwise key i rest hrest⟩
      rcases (mem_insertByKey key i rest b).mp hb with rfl | hb2
      · exact le_of_lt (lt_of_not_le hle)
      · exact hj b hb2

theorem foldr_insertByKey_pairwise (key : Nat → ℚ) :
    ∀ l : List Nat, (l.foldr (insertByKey key) []).Pairwise fun a b => key a ≤ key b
  | [] => List.Pairwise.nil
  | a :: rest => insertByKey_pairwise key a _ (foldr_insertByKey_pairwise key rest)

theorem mem_foldr_insertByKey (key : Nat → ℚ) :
    ∀ (l : List Nat) (a : Nat), a ∈ l.foldr (insertByKey key) [] ↔ a ∈ l
  | [], a => Iff.rfl
  | b :: rest, a => by
    simp only [List.foldr_cons, mem_insertByKey, mem_foldr_insertByKey key rest, List.mem_cons]

theorem foldr_insertByKey_length (key : Nat → ℚ) :
    ∀ l : List Nat, (l.foldr (insertByKey key) []).length = l.length
  | [] => rfl
  | a :: rest => by
    simp [insertByKey_length, foldr_insertByKey_length key rest]

theorem argsortAsc_pairwise (key : Nat → ℚ) (n : Nat) :
    (argsortAsc key n).Pairwise fun a b => key a ≤ key b :=
  foldr_insertByKey_pairwise key (List.range n)

theorem argsortAsc_length (key : Nat → ℚ) (n : Nat) : (argsortAsc key n).length = n := by
  rw [argsortAsc, foldr_insertByKey_length, List.length_range]

theorem mem_argsortAsc (key : Nat → ℚ) (n : Nat) (a : Nat) :
    a ∈ argsortAsc key n ↔ a < n := by
  rw [argsortAsc, mem_foldr_insertByKey, List.mem_range]

theorem pyTailSlice_sublist (xs : List Nat) (k : Nat) : (pyTailSlice xs k).Sublist xs := by
  rw [pyTailSlice]
  split_ifs
  · exact List.Sublist.refl xs
  · exact List.drop_sublist _ _

theorem getD_zipWith (f : ℚ → ℚ → ℚ) :
    ∀ (a b : List ℚ) (i : Nat), i < (List.zipWith f a b).length →
      (List.zipWith f a b).getD i 0 = f (a.getD i 0) (b.getD i 0)
  | [], _, _, h => by simp at h
  | _ :: _, [], _, h => by simp at h
  | x :: xs, y :: ys, 0, _ => rfl
  | x :: xs, y :: ys, i + 1, h => by
    simp only [List.zipWith_cons_cons, List.length_cons, Nat.add_lt_add_iff_right] at h
    simpa using getD_zipWith f xs ys i h

/-- C6 counterexample: with one indexed chunk and `topK = 0`, `retrieve`
returns 1 result rather than at most 0 — `np.argsort(...)[-0:]` is the
whole array because `-0 == 0` in Python. -/
theorem retrieve_topK_zero_counterexample :
    ¬((HybridRetriever.retrieve
        { bm25_weight := 1 / 2, dense_weight := 1 / 2,
          chunks := [⟨"t", "a.pdf", 1, 0, ⟨0, 1, 1⟩⟩], hasIndex := true }
        [1] [1] 0 true).length ≤ 0) := by
  have h : (HybridRetriever.retrieve
      { bm25_weight := 1 / 2, dense_weight := 1 / 2,
        chunks := [⟨"t", "a.pdf", 1, 0, ⟨0, 1, 1⟩⟩], hasIndex := true }
      [1] [1] 0 true).length = 1 := by
    rw [HybridRetriever.retrieve]
    norm_num [HybridRetriever.normalizeScores, npMin, npMax, argsortAsc, insertByKey,
      pyTailSlice, List.foldr]
  omega

/-- C6 amended: `retrieve` returns the empty sequence when no index
exists; for `topK ≥ 1` it returns at most `topK` results (for `topK = 0`
the Python slice `[-0:]` returns everything, see the counterexample); the
results are ordered by descending `combined_score`; and every result's
`combined_score` is `bm25_weight * normalizedBM25 + dense_weight *
normalizedDense` at that result's chunk index. -/
theorem retrieve_contract (r : HybridRetriever) (bm25Raw denseRaw : List ℚ) (k : Nat) :
    (r.chunks.isEmpty = true ∨ r.hasIndex = false →
      r.retrieve bm25Raw denseRaw k true = []) ∧
    (1 ≤ k → (r.retrieve bm25Raw denseRaw k true).length ≤ k) ∧
    (r.retrieve bm25Raw denseRaw k true).Pairwise
      (fun x y => y.combinedScoreD ≤ x.combinedScoreD) ∧
    (∀ res ∈ r.retrieve bm25Raw denseRaw k true,
      ∃ i < (List.zipWith (fun b d => r.bm25_weight * b + r.dense_weight * d)
          (HybridRetriever.normalizeScores bm25Raw)
          (HybridRetriever.normalizeScores denseRaw)).length,
        res.combinedScoreD =
          r.bm25_weight * (HybridRetriever.normalizeScores bm25Raw).getD i 0 +
            r.dense_weight * (HybridRetriever.normalizeScores denseRaw).getD i 0) := by
  by_cases hg : (r.chunks.isEmpty || !r.hasIndex) = true
  · have he : r.retrieve bm25Raw denseRaw k true = [] := by
      rw [HybridRetriever.retrieve, if_pos hg]
    rw [he]
    refine ⟨fun _ => rfl, fun _ => by simp, List.Pairwise.nil, fun res h => absurd h ?_⟩
    simp
  · have hne : r.retrieve bm25Raw denseRaw k true =
        (let bm25Norm := HybridRetriever.normalizeScores bm25Raw
        let denseNorm := HybridRetriever.normalizeScores denseRaw
        let combined := List.zipWith
          (fun b d => r.bm25_weight * b + r.dense_weight * d) bm25Norm denseNorm
        let key := fun i => combined.getD i 0
        let topIndices := (pyTailSlice (argsortAsc key combined.length) k).reverse
        topIndices.map fun i =>
          let c := r.chunks.getD i default
          { text := c.text
            source := c.source
            page := c.page
            chunk_id := c.chunk_id
            scores :=
              some { combined_score := combined.getD i 0
                     bm25_score := bm25Norm.getD i 0
                     dense_score := denseNorm.getD i 0 } }) := by
      rw [HybridRetriever.retrieve, if_neg hg]
      rfl
    refine ⟨fun hc => ?_, fun hk => ?_, ?_, ?_⟩
    · rcases hc with hc | hc <;> simp [hc] at hg
    · rw [hne]
      simp only [List.length_map, List.length_reverse]
      rw [pyTailSlice, if_neg (by omega), List.length_drop, argsortAsc_length]
      omega
    · rw [hne]
      simp only
      have hp : ((pyTailSlice
          (argsortAsc
            (fun j => (List.zipWith (fun b d => r.bm25_weight * b + r.dense_weight * d)
              (HybridRetriever.normalizeScores bm25Raw)
              (HybridRetriever.normalizeScores denseRaw)).getD j 0)
            (List.zipWith (fun b d => r.bm25_weight * b + r.dense_weight * d)
              (HybridRetriever.normalizeScores bm25Raw)
              (HybridRetriever.normalizeScores denseRaw)).length) k).reverse).Pairwise
          (fun a b =>
            (List.zipWith (fun b d => r.bm25_weight * b + r.dense_weight * d)
              (HybridRetriever.normalizeScores bm25Raw)
              (HybridRetriever.normalizeScores denseRaw)).getD b 0 ≤
            (List.zipWith (fun b d => r.bm25_weight * b + r.dense_weight * d)
              (HybridRetriever.normalizeScores bm25Raw)
              (HybridRetriever.normalizeScores denseRaw)).getD a 0) := by
        rw [List.pairwise_reverse]
        exact List.Pairwise.sublist (pyTailSlice_sublist _ _) (argsortAsc_pairwise _ _)
      exact List.Pairwise.map _ (fun a b h => h) hp
    · intro res hres
      rw [hne] at hres
      simp only [List.mem_map, List.mem_reverse] at hres
      rcases hres with ⟨i, hi, rfl⟩
      have him : i ∈ argsortAsc (fun j =>
          (List.zipWith (fun b d => r.bm25_weight * b + r.dense_weight * d)
            (HybridRetriever.normalizeScores bm25Raw)
            (HybridRetriever.normalizeScores denseRaw)).getD j 0)
          (List.zipWith (fun b d => r.bm25_weight * b + r.dense_weight * d)
            (HybridRetriever.normalizeScores bm25Raw)
            (HybridRetriever.normalizeScores denseRaw)).length :=
        (pyTailSlice_sublist _ _).mem hi
      rw [mem_argsortAsc] at him
      refine ⟨i, him, ?_⟩
      rw [RetrievedChunk.combinedScoreD]
      exact getD_zipWith _ _ _ i him

/-- C6 witness: a concrete guard and `topK = 5` discharging the two
hypotheses of the contract. -/
theorem retrieve_contract_witness :
    ({} : HybridRetriever).retrieve [] [] 5 true = [] ∧
    (({} : HybridRetriever).retrieve [] [] 5 true).length ≤ 5 :=
  ⟨(retrieve_contract {} [] [] 5).1 (Or.inl rfl),
    (retrieve_contract {} [] [] 5).2.1 (by omega)⟩

theorem isPrefixOf_nil_of_ne (pat : List Char) (hp : pat ≠ []) :
    pat.isPrefixOf ([] : List Char) = false := by
  cases pat with
  | nil => exact absurd rfl hp
  | cons c cs => rfl

theorem rfindL_lt_length (l pat : List Char) (hp : pat ≠ []) :
    rfindL l pat < (l.length : Int) ∨ rfindL l pat = -1 := by
  rw [rfindL]
  cases hmax : ((List.range (l.length + 1)).filter fun i =>
      pat.isPrefixOf (l.drop i)).max? with
  | none => exact Or.inr rfl
  | some i =>
    left
    have hi : i ∈ (List.range (l.length + 1)).filter fun i => pat.isPrefixOf (l.drop i) :=
      List.max?_mem (fun a b => max_choice a b) hmax
    rcases List.mem_filter.mp hi with ⟨hir, hipre⟩
    have hlt : i < l.length + 1 := List.mem_range.mp hir
    have : i ≠ l.length := by
      intro heq
      rw [heq, List.drop_length, isPrefixOf_nil_of_ne pat hp] at hipre
      exact Bool.false_ne_true hipre
    have : i < l.length := by omega
    show (i : Int) < (l.length : Int)
    exact_mod_cast this

theorem chunkWindow_bounds (dp : DocumentProcessor) (t : List Char) (start : Nat)
    (hS : dp.chunk_overlap + 199 ≤ dp.chunk_size) (h : start < t.length) :
    start + dp.chunk_overlap < (dp.chunkWindow t start).2 ∧
      (dp.chunkWindow t start).2 ≤ start + dp.chunk_size := by
  rw [DocumentProcessor.chunkWindow]
  dsimp only
  split_ifs with h1 h2
  · dsimp only
    have hw0 : ((t.drop start).take dp.chunk_size).length = dp.chunk_size := by
      simp only [List.length_take, List.length_drop]
      omega
    have ha := rfindL_lt_length ((t.drop start).take dp.chunk_size) ['.', ' '] (by simp)
    have hb := rfindL_lt_length ((t.drop start).take dp.chunk_size) ['\n'] (by simp)
    rw [hw0] at ha hb
    have hbp : max (rfindL ((t.drop start).take dp.chunk_size) ['.', ' '])
        (rfindL ((t.drop start).take dp.chunk_size) ['\n']) < (dp.chunk_size : Int) := by
      rcases ha with ha | ha <;> rcases hb with hb | hb <;>
        refine max_lt ?_ ?_ <;> first
          | assumption
          | (rw [ha]; omega)
          | (rw [hb]; omega)
    have hlen : (((t.drop start).take dp.chunk_size).take
        (max (rfindL ((t.drop start).take dp.chunk_size) ['.', ' '])
          (rfindL ((t.drop start).take dp.chunk_size) ['\n']) + 1).toNat).length =
        (max (rfindL ((t.drop start).take dp.chunk_size) ['.', ' '])
          (rfindL ((t.drop start).take dp.chunk_size) ['\n']) + 1).toNat := by
      rw [List.length_take, hw0]
      omega
    rw [hlen]
    omega
  · dsimp only
    omega
  · dsimp only
    omega

theorem createChunksAux_spec (dp : DocumentProcessor) (t : List Char) (src : String)
    (pg : Nat) (hS : dp.chunk_overlap + 199 ≤ dp.chunk_size) :
    ∀ fuel start cid, start < t.length → t.length - start < fuel →
      dp.createChunksAux t src pg fuel start cid ≠ [] ∧
      ((dp.createChunksAux t src pg fuel start cid).headD default).metadata.char_start =
        start ∧
      t.length ≤
        (((dp.createChunksAux t src pg fuel start cid).getLast?).getD
          default).metadata.char_end ∧
      (dp.createChunksAux t src pg fuel start cid).Chain'
        (fun a b => b.metadata.char_start = a.metadata.char_end - dp.chunk_overlap) := by
  intro fuel
  induction fuel with
  | zero => intro start cid h1 h2; omega
  | succ n ih =>
    intro start cid hstart hfuel
    have hcw := chunkWindow_bounds dp t start hS hstart
    rw [DocumentProcessor.createChunksAux, if_pos hstart]
    dsimp only
    by_cases hbr : (t.length ≤ (dp.chunkWindow t start).2 - dp.chunk_overlap ||
        t.length ≤ (dp.chunkWindow t start).2) = true
    · rw [if_pos hbr]
      simp only [Bool.or_eq_true, decide_eq_true_eq] at hbr
      refine ⟨by simp, rfl, ?_, List.chain'_singleton _⟩
      simp only [List.getLast?_singleton, Option.getD_some]
      show t.length ≤ (dp.chunkWindow t start).2
      omega
    · rw [if_neg hbr]
      simp only [Bool.or_eq_true, decide_eq_true_eq, not_or, not_le] at hbr
      have hrec := ih ((dp.chunkWindow t start).2 - dp.chunk_overlap) (cid + 1)
        hbr.1 (by omega)
      obtain ⟨hne, hhead, hlast, hchain⟩ := hrec
      obtain ⟨x, xs, hx⟩ := List.exists_cons_of_ne_nil hne
      rw [hx] at hhead hlast hchain
      rw [hx]
      refine ⟨by simp, rfl, ?_, ?_⟩
      · rw [List.getLast?_cons_cons]
        exact hlast
      · rw [List.chain'_cons]
        simp only [List.headD_cons] at hhead
        exact ⟨hhead, hchain⟩

theorem chain_cover (O len : Nat) :
    ∀ (cs : List DocumentChunk) (p : Nat), cs ≠ [] →
      cs.Chain' (fun a b => b.metadata.char_start = a.metadata.char_end - O) →
      len ≤ ((cs.getLast?).getD default).metadata.char_end →
      (cs.headD default).metadata.char_start ≤ p → p < len →
      ∃ c ∈ cs, c.metadata.char_start ≤ p ∧ p < c.metadata.char_end
  | [], _, h, _, _, _, _ => absurd rfl h
  | [c], p, _, _, hlast, hhead, hp => by
    refine ⟨c, List.mem_singleton_self c, hhead, ?_⟩
    simp only [List.getLast?_singleton, Option.getD_some] at hlast
    omega
  | c1 :: c2 :: rest, p, _, hchain, hlast, hhead, hp => by
    by_cases hpe : p < c1.metadata.char_end
    · exact ⟨c1, List.mem_cons_self _ _, hhead, hpe⟩
    · rcases List.chain'_cons.mp hchain with ⟨h12, htail⟩
      have hx := chain_cover O len (c2 :: rest) p (by simp) htail
        (by rw [List.getLast?_cons_cons] at hlast; exact hlast)
        (by simp only [List.headD_cons]; omega) hp
      rcases hx with ⟨c, hc, ha, hb⟩
      exact ⟨c, List.mem_cons_of_mem _ hc, ha, hb⟩

/-- C8: for a non-empty cleaned page text (and any chunker configuration
with `overlap + 199 ≤ size`, which includes the defaults 200/800), every
chunk after the first begins exactly `chunk_overlap` characters before the
previous chunk's recorded end — the source sets `start = end - overlap`
unconditionally, so in particular whenever no break-point adjustment
triggered — and the recorded `[char_start, char_end)` ranges cover the
whole text (the final short window included). -/
theorem createChunks_overlap_cover (dp : DocumentProcessor) (t : List Char)
    (src : String) (pg : Nat) (hS : dp.chunk_overlap + 199 ≤ dp.chunk_size)
    (ht : t ≠ []) :
    (dp.createChunks t src pg).Chain'
      (fun a b => b.metadata.char_start = a.metadata.char_end - dp.chunk_overlap) ∧
    ∀ p < t.length, ∃ c ∈ dp.createChunks t src pg,
      c.metadata.char_start ≤ p ∧ p < c.metadata.char_end := by
  have hlen : 0 < t.length := List.length_pos.mpr ht
  unfold DocumentProcessor.createChunks
  obtain ⟨hne, hhead, hlast, hchain⟩ :=
    createChunksAux_spec dp t src pg hS (t.length + 1) 0 0 hlen (by omega)
  exact ⟨hchain, fun p hp =>
    chain_cover dp.chunk_overlap t.length _ p hne hchain hlast (by rw [hhead]; omega) hp⟩

/-- C8 witness: the default configuration (size 800, overlap 200) on the
two-character page text `"hi"`. -/
theorem createChunks_overlap_cover_witness :
    ((({} : DocumentProcessor)).createChunks ("hi".toList) ("a.pdf") 1).Chain'
      (fun a b => b.metadata.char_start =
        a.metadata.char_end - ({} : DocumentProcessor).chunk_overlap) ∧
    ∀ p < "hi".toList.length, ∃ c ∈ (({} : DocumentProcessor)).createChunks
        ("hi".toList) ("a.pdf") 1,
      c.metadata.char_start ≤ p ∧ p < c.metadata.char_end :=
  createChunks_overlap_cover {} ("hi".toList) ("a.pdf") 1 (by decide) (by decide)
